import Mathlib

/-!
# Verification of the multimodal RAG indexing/retrieval core

Shallow embedding of the multimodal multi-vector RAG pipeline:
`summarizer.py` (batch text summarisation with degraded fallback, per-image
summarisation with a sentinel fallback), `utils.py` (base64 heuristic,
docstore persistence, indexed-PDF registry) and `vectorstore.py`
(dual-store batch indexing), together with theorems about the properties
the design documents claim for them.

External collaborators (the LLM, the embedding store, the filesystem) are
modelled as explicit parameters: an oracle function for the model's answer
per input, a failure predicate for raised calls, and `Option`-valued file
contents (`none` = the file does not exist).
-/

namespace MMRag

/-! ## Summariser (src/summarizer.py)

`summarise_texts` processes its input in slices `texts[i : i+concurrency]`.
The LangChain call `chain.batch(inputs)` maps each input of the batch
independently through the prompt/model/parser chain and returns one output
string per input, in order; it raises if the batch call fails as a whole.
We model it by an oracle `f : String → String` (the model's summary of one
element) and a predicate `fail : List String → Bool` saying whether the
call for a given batch raises.  On a raised batch the source falls back to
`t[:500]` for each element `t` of that batch and continues with the next
batch.  The Python loop `for i in range(0, len(texts), concurrency)` needs
`concurrency ≥ 1` (step 0 raises `ValueError`); the slice
`texts[i : i+concurrency]` of a nonempty remainder `t :: ts` is
`t :: ts.take (concurrency - 1)` and the next remainder is
`ts.drop (concurrency - 1)`. -/

/-- Embedding of `summarise_texts` (src/summarizer.py:50-83). -/
def summarise_texts (f : String → String) (fail : List String → Bool)
    (concurrency : Nat) : List String → List String
  | [] => []
  | t :: ts =>
    (if fail (t :: ts.take (concurrency - 1))
     then (t :: ts.take (concurrency - 1)).map (fun s => s.take 500)
     else (t :: ts.take (concurrency - 1)).map f)
      ++ summarise_texts f fail concurrency (ts.drop (concurrency - 1))
termination_by l => l.length
decreasing_by simp only [List.length_drop, List.length_cons]; omega

/-- The successive batches `texts[i : i+concurrency]` taken by the loop of
`summarise_texts` (src/summarizer.py:70-71). -/
def chunksOf (concurrency : Nat) : List String → List (List String)
  | [] => []
  | t :: ts => (t :: ts.take (concurrency - 1)) :: chunksOf concurrency (ts.drop (concurrency - 1))
termination_by l => l.length
decreasing_by simp only [List.length_drop, List.length_cons]; omega

/-- The sentinel substituted by `summarise_images` when a per-image call
raises (src/summarizer.py:130). -/
def imageSentinel : String := "[Image — summary unavailable]"

/-- Embedding of `summarise_images` (src/summarizer.py:97-134): one
`llm.invoke` call per image, modelled by `g : String → Option String`
(`none` = the call for that image raises; the `except` branch then appends
the sentinel and the loop continues with the next image). -/
def summarise_images (g : String → Option String) : List String → List String
  | [] => []
  | img :: imgs =>
    (match g img with
     | some response => response
     | none => imageSentinel) :: summarise_images g imgs

/-! ### Summariser lemmas -/

theorem summarise_texts_nil (f : String → String) (fail : List String → Bool)
    (c : Nat) : summarise_texts f fail c [] = [] := by
  rw [summarise_texts]

theorem summarise_texts_cons (f : String → String) (fail : List String → Bool)
    (c : Nat) (t : String) (ts : List String) :
    summarise_texts f fail c (t :: ts) =
      (if fail (t :: ts.take (c - 1))
       then (t :: ts.take (c - 1)).map (fun s => s.take 500)
       else (t :: ts.take (c - 1)).map f)
        ++ summarise_texts f fail c (ts.drop (c - 1)) := by
  rw [summarise_texts]

theorem summarise_texts_length (f : String → String) (fail : List String → Bool)
    (c : Nat) (l : List String) :
    (summarise_texts f fail c l).length = l.length := by
  induction l using summarise_texts.induct f fail c with
  | case1 => rw [summarise_texts_nil]
  | case2 t ts ih =>
    rw [summarise_texts_cons]
    cases h : fail (t :: ts.take (c - 1)) <;>
      simp [h, ih, List.length_take, List.length_drop] <;> omega

theorem summarise_texts_getElem? (f : String → String) (fail : List String → Bool)
    (c : Nat) (l : List String) (i : Nat) :
    (summarise_texts f fail c l)[i]? = (l[i]?).map f ∨
    (summarise_texts f fail c l)[i]? = (l[i]?).map (fun t => t.take 500) := by
  induction l using summarise_texts.induct f fail c generalizing i with
  | case1 => left; rw [summarise_texts_nil]; simp
  | case2 t ts ih =>
    rw [summarise_texts_cons]
    have hblen : (t :: ts.take (c - 1)).length = min (c - 1) ts.length + 1 := by
      simp [List.length_take]
    have hiflen :
        (if fail (t :: ts.take (c - 1))
         then (t :: ts.take (c - 1)).map (fun s => s.take 500)
         else (t :: ts.take (c - 1)).map f).length = (t :: ts.take (c - 1)).length := by
      cases fail (t :: ts.take (c - 1)) <;> simp
    by_cases hi : i < (t :: ts.take (c - 1)).length
    · -- the index falls inside the current batch
      have hbi : (t :: ts.take (c - 1))[i]? = (t :: ts)[i]? := by
        rcases i with _ | j
        · simp
        · have hj : j < min (c - 1) ts.length := by omega
          simp only [List.getElem?_cons_succ]
          exact List.getElem?_take_of_lt (Nat.lt_of_lt_of_le hj (Nat.min_le_left _ _))
      cases hfail : fail (t :: ts.take (c - 1))
      · left
        rw [if_neg (by simp)]
        rw [List.getElem?_append_left (by simpa using hi)]
        rw [List.getElem?_map, hbi]
      · right
        rw [if_pos rfl]
        rw [List.getElem?_append_left (by simpa using hi)]
        rw [List.getElem?_map, hbi]
    · -- the index falls in a later batch, handled by the recursive call
      push_neg at hi
      rw [List.getElem?_append_right (by rw [hiflen]; exact hi)]
      rw [hiflen]
      have hdrop : (ts.drop (c - 1))[i - (t :: ts.take (c - 1)).length]? = (t :: ts)[i]? := by
        rw [List.getElem?_drop]
        rcases Nat.lt_or_ge (c - 1) ts.length with hlt | hge
        · rcases i with _ | j
          · omega
          · rw [List.getElem?_cons_succ]
            congr 1
            omega
        · -- the current batch swallows the whole list: both sides are `none`
          rw [List.getElem?_eq_none (by simp [List.length_take]; omega),
              List.getElem?_eq_none (by simp; omega)]
      rcases ih (i - (t :: ts.take (c - 1)).length) with h | h
      · left; rw [h, hdrop]
      · right; rw [h, hdrop]

theorem summarise_texts_eq_chunks (f : String → String) (fail : List String → Bool)
    (c : Nat) (l : List String) :
    summarise_texts f fail c l =
      ((chunksOf c l).map
        (fun b => if fail b then b.map (fun t => t.take 500) else b.map f)).flatten := by
  induction l using summarise_texts.induct f fail c with
  | case1 => rw [summarise_texts_nil, chunksOf]; rfl
  | case2 t ts ih => rw [summarise_texts_cons, chunksOf]; simp [ih]

theorem chunksOf_flatten (c : Nat) (l : List String) :
    (chunksOf c l).flatten = l := by
  induction l using chunksOf.induct c with
  | case1 => rw [chunksOf]; rfl
  | case2 t ts ih => rw [chunksOf]; simp [ih, List.take_append_drop]

theorem summarise_texts_all_fail (f : String → String) (c : Nat) (l : List String) :
    summarise_texts f (fun _ => true) c l = l.map (fun t => t.take 500) := by
  induction l using summarise_texts.induct f (fun _ => true) c with
  | case1 => rw [summarise_texts_nil]; rfl
  | case2 t ts ih =>
    rw [summarise_texts_cons, if_pos rfl, ih]
    simp [List.take_append_drop]

theorem summarise_images_length (g : String → Option String) (l : List String) :
    (summarise_images g l).length = l.length := by
  induction l with
  | nil => rfl
  | cons x xs ih => simp [summarise_images, ih]

theorem summarise_images_getElem? (g : String → Option String) (l : List String)
    (i : Nat) :
    (summarise_images g l)[i]? = (l[i]?).map (fun s => (g s).getD imageSentinel) := by
  induction l generalizing i with
  | nil => rfl
  | cons x xs ih =>
    rcases i with _ | j
    · simp only [summarise_images, List.getElem?_cons_zero, Option.map_some]
      cases h : g x <;> simp [h]
    · simp only [summarise_images, List.getElem?_cons_succ]
      exact ih j

/-! ### Summariser claim theorems -/

/-- **C1.** For every input sequence, `summarise_texts` and
`summarise_images` return a list of the same length as the input, with
`output[i]` derived solely from `input[i]`: the i-th text summary is either
the model's summary `f input[i]` of that element alone or the 500-character
truncation `input[i][:500]` of that element alone, and the i-th image
summary is the model's answer for `input[i]` (or the sentinel when that
call raises).  An empty input yields an empty result.  `concurrency ≥ 1`
because the source loop `range(0, len(texts), concurrency)` raises on
step 0. -/
theorem pairing_invariant (f : String → String) (fail : List String → Bool)
    (g : String → Option String) (c : Nat) (hc : 0 < c)
    (texts imgs : List String) :
    (summarise_texts f fail c texts).length = texts.length ∧
    (summarise_images g imgs).length = imgs.length ∧
    (∀ i : Nat, (summarise_texts f fail c texts)[i]? = (texts[i]?).map f ∨
      (summarise_texts f fail c texts)[i]? = (texts[i]?).map (fun t => t.take 500)) ∧
    (∀ i : Nat,
      (summarise_images g imgs)[i]? = (imgs[i]?).map (fun s => (g s).getD imageSentinel)) ∧
    summarise_texts f fail c [] = [] ∧
    summarise_images g [] = [] :=
  ⟨summarise_texts_length f fail c texts,
   summarise_images_length g imgs,
   fun i => summarise_texts_getElem? f fail c texts i,
   fun i => summarise_images_getElem? g imgs i,
   summarise_texts_nil f fail c,
   rfl⟩

theorem pairing_invariant_witness :
    0 < 2 ∧
    ((summarise_texts (fun t => t ++ "*") (fun b => b.length == 3) 2
        ["u", "v", "w"]).length = 3 ∧
     (summarise_images (fun _ => none) ["i1", "i2"]).length = 2 ∧
     (∀ i : Nat,
        (summarise_texts (fun t => t ++ "*") (fun b => b.length == 3) 2
          ["u", "v", "w"])[i]? = ((["u", "v", "w"] : List String)[i]?).map (fun t => t ++ "*") ∨
        (summarise_texts (fun t => t ++ "*") (fun b => b.length == 3) 2
          ["u", "v", "w"])[i]? =
          ((["u", "v", "w"] : List String)[i]?).map (fun t => t.take 500)) ∧
     (∀ i : Nat,
        (summarise_images (fun _ => none) ["i1", "i2"])[i]? =
          ((["i1", "i2"] : List String)[i]?).map
            (fun s => ((fun _ => (none : Option String)) s).getD imageSentinel)) ∧
     summarise_texts (fun t => t ++ "*") (fun b => b.length == 3) 2 [] = [] ∧
     summarise_images (fun _ => none) [] = []) :=
  ⟨by decide,
   pairing_invariant (fun t => t ++ "*") (fun b => b.length == 3) (fun _ => none) 2
     (by decide) ["u", "v", "w"] ["i1", "i2"]⟩

/-- **C2.** If the summarization call for a batch raises, `summarise_texts`
does not fail the whole pipeline: the output is the in-order concatenation,
over the loop's batches `texts[i : i+concurrency]`, of either the model's
per-element summaries (batch succeeded) or the batch's own elements each
truncated to their first 500 characters `t[:500]` (batch raised); the
batches partition the input, so processing continues with the next batch
after a failure.  In particular, when every batch call raises, every unit
still receives the truncated prefix of its own raw content. -/
theorem degraded_batch_fallback (f : String → String) (fail : List String → Bool)
    (c : Nat) (hc : 0 < c) (texts : List String) :
    summarise_texts f fail c texts =
      ((chunksOf c texts).map
        (fun b => if fail b then b.map (fun t => t.take 500) else b.map f)).flatten ∧
    (chunksOf c texts).flatten = texts ∧
    summarise_texts f (fun _ => true) c texts = texts.map (fun t => t.take 500) :=
  ⟨summarise_texts_eq_chunks f fail c texts,
   chunksOf_flatten c texts,
   summarise_texts_all_fail f c texts⟩

theorem degraded_batch_fallback_witness :
    0 < 2 ∧
    (summarise_texts (fun _ => "ok") (fun b => b.length == 2) 2 ["aa", "bb", "cc"] =
      ((chunksOf 2 ["aa", "bb", "cc"]).map
        (fun b => if b.length == 2 then b.map (fun t => t.take 500)
                  else b.map (fun _ => "ok"))).flatten ∧
     (chunksOf 2 ["aa", "bb", "cc"]).flatten = ["aa", "bb", "cc"] ∧
     summarise_texts (fun _ => "ok") (fun _ => true) 2 ["aa", "bb", "cc"] =
       (["aa", "bb", "cc"] : List String).map (fun t => t.take 500)) :=
  ⟨by decide,
   degraded_batch_fallback (fun _ => "ok") (fun b => b.length == 2) 2 (by decide)
     ["aa", "bb", "cc"]⟩

/-- **C7 (counterexample).** The claim names the fixed sentinel
`"summary unavailable"`; the string the source substitutes on a failed
per-image call (src/summarizer.py:130) is `"[Image — summary unavailable]"`.
With an oracle whose single call raises, the output is the bracketed
sentinel, not `"summary unavailable"`. -/
theorem image_sentinel_counterexample :
    summarise_images (fun _ => none) ["imgdata"] = ["[Image — summary unavailable]"] ∧
    summarise_images (fun _ => none) ["imgdata"] ≠ ["summary unavailable"] :=
  ⟨rfl, by decide⟩

/-- **C7 (amended).** On each per-image summarization failure,
`summarise_images` substitutes the fixed sentinel string
`"[Image — summary unavailable]"` as that image's summary rather than
aborting, and continues to the next image; each image is sent in its own
single call (the oracle `g` is applied to one image at a time, never to a
batch), so every input image yields exactly one output summary. -/
theorem image_failure_isolation (g : String → Option String) (imgs : List String) :
    (summarise_images g imgs).length = imgs.length ∧
    (∀ i : Nat,
      (summarise_images g imgs)[i]? =
        (imgs[i]?).map (fun s => (g s).getD "[Image — summary unavailable]")) :=
  ⟨summarise_images_length g imgs,
   fun i => summarise_images_getElem? g imgs i⟩

/-! ## Base64 heuristic (src/utils.py:19-28)

`is_base64_image` returns `False` for strings shorter than 200 characters
and otherwise matches the compiled pattern `^[A-Za-z0-9+/\n\r]+=*$` against
the first 500 characters `text[:500]`.  Python `re` anchors: `$` matches at
the end of the string or just before a trailing newline.  Since `=` is not
in the character class, greedy matching of the class block is exact. -/

/-- The character class `[A-Za-z0-9+/\n\r]` (Python `re` with an explicit
ASCII class; `Char.isAlphanum` is exactly `[A-Za-z0-9]`). -/
def isB64Char (ch : Char) : Bool :=
  ch.isAlphanum || ch = '+' || ch = '/' || ch = '\n' || ch = '\r'

/-- `[A-Za-z0-9+/\n\r]+=*` against the whole character list: a nonempty
block of class characters followed by a run of `=`. -/
def b64Block (cs : List Char) : Bool :=
  (!(cs.takeWhile isB64Char).isEmpty) &&
    (cs.drop (cs.takeWhile isB64Char).length).all (fun ch => ch = '=')

/-- `pattern.match(s)` for the anchored pattern, with Python's `$`
semantics: match at the true end, or just before one trailing newline. -/
def b64Match (cs : List Char) : Bool :=
  b64Block cs || ((cs.getLast? == some '\n') && b64Block cs.dropLast)

/-- Embedding of `is_base64_image` (src/utils.py:19-28).  `len(text)` is
the character count and `text[:500]` the first 500 characters, i.e.
`s.data.take 500`. -/
def is_base64_image (s : String) : Bool :=
  if s.length < 200 then false
  else b64Match (s.data.take 500)

/-- A 300-character string over the alphabet claimed by C6, with a `=` in
the middle. -/
def midEqualsString : String :=
  String.mk (List.replicate 150 'A' ++ '=' :: List.replicate 149 'A')

/-! ## Retrieved-document parsing (src/rag_chain.py:20-38)

The docs handed to `parse_docs` are the docstore originals, i.e. strings;
the returned dict is modelled as the pair `(texts, images)`. -/

/-- Embedding of `parse_docs` (src/rag_chain.py:20-38): each doc is
appended to `images` when `is_base64_image` holds of its content, else to
`texts`, preserving input order within each list. -/
def parse_docs (docs : List String) : List String × List String :=
  match docs with
  | [] => ([], [])
  | d :: ds =>
    let rest := parse_docs ds
    if is_base64_image d then (rest.1, d :: rest.2)
    else (d :: rest.1, rest.2)

/-! ### Base64 / parsing lemmas -/

theorem takeWhile_all_eq (p : Char → Bool) (l : List Char) (h : l.all p = true) :
    l.takeWhile p = l := by
  induction l with
  | nil => rfl
  | cons x xs ih =>
    simp only [List.all_cons, Bool.and_eq_true] at h
    simp [List.takeWhile_cons, h.1, ih h.2]

theorem b64Block_of_split (bs es : List Char)
    (hb : bs.all isB64Char = true) (hne : bs ≠ [])
    (he : es.all (fun ch => ch = '=') = true) :
    b64Block (bs ++ es) = true := by
  have hself : bs.takeWhile isB64Char = bs := takeWhile_all_eq _ _ hb
  have hes : es.takeWhile isB64Char = [] := by
    cases es with
    | nil => rfl
    | cons e es' =>
      have h1 : e = '=' := by
        simp only [List.all_cons, Bool.and_eq_true, decide_eq_true_eq] at he
        exact he.1
      subst h1
      have h2 : isB64Char '=' = false := by decide
      simp [List.takeWhile_cons, h2]
  have htw : (bs ++ es).takeWhile isB64Char = bs := by
    rw [List.takeWhile_append, if_pos (by rw [hself]), hes, List.append_nil]
  unfold b64Block
  rw [htw, Bool.and_eq_true]
  constructor
  · cases bs with
    | nil => exact absurd rfl hne
    | cons x xs => rfl
  · rw [List.drop_left]
    exact he

theorem parse_docs_eq_filter (docs : List String) :
    (parse_docs docs).1 = docs.filter (fun d => !is_base64_image d) ∧
    (parse_docs docs).2 = docs.filter (fun d => is_base64_image d) := by
  induction docs with
  | nil => exact ⟨rfl, rfl⟩
  | cons d ds ih =>
    cases h : is_base64_image d <;>
      simp [parse_docs, h, List.filter_cons, ih.1, ih.2]

/-! ### Base64 / parsing claim theorems -/

set_option maxRecDepth 10000 in
/-- **C6 (counterexample).** The claim states that every 300-character
string over the alphabet alphanumeric ∪ `+`, `/`, `=` classifies as
image-like.  `midEqualsString` is 300 characters drawn from that alphabet,
but its `=` sits in the middle, where the pattern
`^[A-Za-z0-9+/\n\r]+=*$` (which only allows a trailing run of `=`) rejects
it, so `is_base64_image` returns `False`. -/
theorem base64_claim_counterexample :
    midEqualsString.length = 300 ∧
    midEqualsString.data.all
      (fun ch => ch.isAlphanum || ch = '+' || ch = '/' || ch = '=') = true ∧
    is_base64_image midEqualsString = false :=
  ⟨by decide, by decide, by decide⟩

/-- **C6 (amended).** `is_base64_image` classifies every 300-character
string consisting of alphanumeric characters plus `+` and `/`, followed by
a (possibly empty) trailing run of `=`, as image-like, and never classifies
any string shorter than 200 characters (in particular ordinary prose) as
image-like. -/
theorem base64_classification (bs es : List Char)
    (hb : bs.all (fun ch => ch.isAlphanum || ch = '+' || ch = '/') = true)
    (hne : bs ≠ [])
    (he : es.all (fun ch => ch = '=') = true)
    (hlen : bs.length + es.length = 300) :
    is_base64_image (String.mk (bs ++ es)) = true ∧
    ∀ s : String, s.length < 200 → is_base64_image s = false := by
  constructor
  · have hb' : bs.all isB64Char = true := by
      rw [List.all_eq_true] at hb ⊢
      intro ch hch
      have := hb ch hch
      simp only [Bool.or_eq_true, beq_iff_eq] at this ⊢
      unfold isB64Char
      rcases this with (h | h) | h <;> simp [h]
    have hlen' : (String.mk (bs ++ es)).length = 300 := by
      simpa [String.length] using hlen
    rw [is_base64_image, if_neg (by omega)]
    have htake : (String.mk (bs ++ es)).data.take 500 = bs ++ es := by
      apply List.take_of_length_le
      simp; omega
    rw [htake, b64Match, Bool.or_eq_true]
    exact Or.inl (b64Block_of_split bs es hb' hne he)
  · intro s hs
    rw [is_base64_image, if_pos hs]

set_option maxRecDepth 10000 in
theorem base64_classification_witness :
    ((List.replicate 290 'A').all
      (fun ch => ch.isAlphanum || ch = '+' || ch = '/') = true ∧
     (List.replicate 290 'A') ≠ [] ∧
     (List.replicate 10 '=').all (fun ch => ch = '=') = true ∧
     (List.replicate 290 'A').length + (List.replicate 10 '=').length = 300) ∧
    (is_base64_image
        (String.mk (List.replicate 290 'A' ++ List.replicate 10 '=')) = true ∧
     ∀ s : String, s.length < 200 → is_base64_image s = false) :=
  ⟨⟨by decide, by decide, by decide, by decide⟩,
   base64_classification (List.replicate 290 'A') (List.replicate 10 '=')
     (by decide) (by decide) (by decide) (by decide)⟩

/-- **C9.** For every list of retrieved documents, `parse_docs` returns a
partition of the input: `texts` is exactly the in-order sublist of docs on
which `is_base64_image` is false, `images` the in-order sublist on which it
is true (so each document lands in exactly one of the two lists, membership
in each is characterised by the classifier, and the two lengths sum to the
input length). -/
theorem parse_docs_partition (docs : List String) :
    (parse_docs docs).1 = docs.filter (fun d => !is_base64_image d) ∧
    (parse_docs docs).2 = docs.filter (fun d => is_base64_image d) ∧
    (parse_docs docs).1.length + (parse_docs docs).2.length = docs.length ∧
    ∀ d : String,
      (d ∈ (parse_docs docs).1 ↔ d ∈ docs ∧ is_base64_image d = false) ∧
      (d ∈ (parse_docs docs).2 ↔ d ∈ docs ∧ is_base64_image d = true) := by
  obtain ⟨h1, h2⟩ := parse_docs_eq_filter docs
  refine ⟨h1, h2, ?_, ?_⟩
  · rw [h1, h2]
    have hfl : docs.length =
        (docs.filter (fun d => is_base64_image d)).length +
        (docs.filter (fun d => !is_base64_image d)).length :=
      List.length_eq_length_filter_add _
    omega
  · intro d
    constructor
    · rw [h1, List.mem_filter]
      simp
    · rw [h2, List.mem_filter]

/-! ## InMemoryStore and docstore persistence (src/utils.py:44-64)

LangChain's `InMemoryStore` wraps a Python dict from string keys to
arbitrary stored values; a stored value may be Python `None`, modelled as
`none`.  The dict is modelled as an association list in insertion order;
well-formed stores (every store a Python dict can represent) have no
duplicate keys, which theorems assume via a `Nodup` hypothesis.  The
filesystem slot at the docstore path is `Option (List (String × String))`:
`none` when no file exists, otherwise the pickled mapping (pickling is
modelled as storing the mapping itself). -/

abbrev InMemoryStore := List (String × Option String)

/-- `store.mget([k])[0]`: the stored value; Python returns `None` both for
a missing key and for a key stored with value `None`. -/
def mget (store : InMemoryStore) (k : String) : Option String :=
  match store.find? (fun p => p.1 == k) with
  | some p => p.2
  | none => none

/-- `store.yield_keys()`: the dict's keys in insertion order. -/
def yieldKeys (store : InMemoryStore) : List String := store.map Prod.fst

/-- Writing one pair into the dict: overwrite in place when the key is
present, else append. -/
def setPair (store : InMemoryStore) (kv : String × Option String) : InMemoryStore :=
  if store.any (fun p => p.1 == kv.1) then
    store.map (fun p => if p.1 == kv.1 then kv else p)
  else store ++ [kv]

/-- `store.mset(pairs)`: dict `update` with the pairs in order. -/
def mset (store : InMemoryStore) (pairs : List (String × Option String)) : InMemoryStore :=
  pairs.foldl setPair store

/-- The mapping `save_docstore` pickles (src/utils.py:44-53): iterate
`yield_keys`, keep each key whose `mget` value is not `None`. -/
def save_docstore (store : InMemoryStore) : List (String × String) :=
  (yieldKeys store).filterMap (fun k => (mget store k).map (fun v => (k, v)))

/-- Embedding of `load_docstore` (src/utils.py:56-64): a fresh store; if
the file exists its mapping is deserialized and, when nonempty, `mset`
into the store. -/
def load_docstore (file : Option (List (String × String))) : InMemoryStore :=
  match file with
  | none => []
  | some internal =>
    if internal.isEmpty then []
    else mset [] (internal.map (fun p => (p.1, some p.2)))

/-! ### Docstore lemmas -/

theorem mset_nil_eq (pairs : List (String × Option String)) :
    ∀ acc : InMemoryStore,
      ((acc ++ pairs).map Prod.fst).Nodup → mset acc pairs = acc ++ pairs := by
  induction pairs with
  | nil => intro acc _; simp [mset]
  | cons p ps ih =>
    intro acc hnd
    have hnotin : acc.any (fun q => q.1 == p.1) = false := by
      rw [List.any_eq_false]
      intro q hq
      simp only [beq_iff_eq]
      have hmem1 : q.1 ∈ (acc.map Prod.fst) := List.mem_map_of_mem _ hq
      have hmem2 : p.1 ∈ ((p :: ps).map Prod.fst) := by simp
      intro hEq
      have hnd2 : ((acc.map Prod.fst) ++ ((p :: ps).map Prod.fst)).Nodup := by
        simpa [List.map_append] using hnd
      exact (List.nodup_append.mp hnd2).2.2 hmem1 (hEq ▸ hmem2)
    have step : setPair acc p = acc ++ [p] := by
      rw [setPair, if_neg (by simp [hnotin])]
    have : mset acc (p :: ps) = mset (acc ++ [p]) ps := by
      simp [mset, List.foldl_cons, step]
    rw [this, ih (acc ++ [p]) (by simpa using hnd)]
    simp

theorem find?_eq_of_mem_nodup (store : InMemoryStore) (p : String × Option String)
    (hnd : (store.map Prod.fst).Nodup) (hp : p ∈ store) :
    store.find? (fun q => q.1 == p.1) = some p := by
  induction store with
  | nil => cases hp
  | cons q qs ih =>
    simp only [List.map_cons, List.nodup_cons] at hnd
    rcases List.mem_cons.mp hp with hEq | hmem
    · subst hEq
      simp [List.find?_cons]
    · have hne : (q.1 == p.1) = false := by
        simp only [beq_eq_false_iff_ne, ne_eq]
        intro hEq
        exact hnd.1 (hEq ▸ List.mem_map_of_mem _ hmem)
      rw [List.find?_cons, hne]
      exact ih hnd.2 hmem

theorem mget_of_mem_nodup (store : InMemoryStore) (p : String × Option String)
    (hnd : (store.map Prod.fst).Nodup) (hp : p ∈ store) :
    mget store p.1 = p.2 := by
  rw [mget, find?_eq_of_mem_nodup store p hnd hp]

/-- Under key uniqueness, the pickled mapping is exactly the non-`None`
entries of the store, in order. -/
theorem save_docstore_eq_filterMap (store : InMemoryStore)
    (hnd : (yieldKeys store).Nodup) :
    save_docstore store = store.filterMap (fun p => (p.2).map (fun v => (p.1, v))) := by
  rw [save_docstore, yieldKeys, List.filterMap_map]
  apply List.filterMap_congr
  intro p hp
  rw [Function.comp_apply, mget_of_mem_nodup store p hnd hp]

theorem filterMap_some_map (l : InMemoryStore) :
    (l.filterMap (fun p => (p.2).map (fun v => (p.1, v)))).map
        (fun q => (q.1, some q.2)) =
      l.filter (fun p => !p.2.isNone) := by
  induction l with
  | nil => rfl
  | cons p ps ih =>
    rcases p with ⟨k, v⟩
    cases v with
    | none => simpa [List.filterMap_cons, List.filter_cons] using ih
    | some w => simpa [List.filterMap_cons, List.filter_cons] using ih

/-- Saving then loading rebuilds exactly the non-`None` entries of the
store, in their original order. -/
theorem load_save_eq (store : InMemoryStore) (hnd : (yieldKeys store).Nodup) :
    load_docstore (some (save_docstore store)) =
      store.filter (fun p => !p.2.isNone) := by
  have hmapsave : (save_docstore store).map (fun p => (p.1, some p.2)) =
      store.filter (fun p => !p.2.isNone) := by
    rw [save_docstore_eq_filterMap store hnd]
    exact filterMap_some_map store
  have hnd' : (store.map Prod.fst).Nodup := by simpa [yieldKeys] using hnd
  have hkeys : (((save_docstore store).map (fun p => (p.1, some p.2))).map Prod.fst).Nodup := by
    rw [hmapsave]
    exact List.Nodup.sublist ((List.filter_sublist store).map Prod.fst) hnd'
  simp only [load_docstore]
  by_cases hemp : (save_docstore store).isEmpty
  · rw [if_pos hemp]
    have hz : save_docstore store = [] := by simpa [List.isEmpty_iff] using hemp
    rw [hz] at hmapsave
    simpa using hmapsave
  · rw [if_neg hemp]
    rw [mset_nil_eq _ [] (by simpa using hkeys)]
    simpa using hmapsave

/-! ### Docstore claim theorems -/

/-- **C4.** Persisting a docstore with `save_docstore` and then reloading
it with `load_docstore` yields a key-value store observationally equivalent
to the one before persistence: `mget` agrees on every key and the key sets
coincide.  Loading from a path where no file exists (`none`) yields an
empty store.  The store is a Python dict, so its keys are distinct
(`hnd`); its values here are the indexed originals, which are strings, not
`None` (`hv`) — `save_docstore` drops `None`-valued entries, the case
covered separately by the C10 theorem. -/
theorem docstore_roundtrip (store : InMemoryStore)
    (hnd : (yieldKeys store).Nodup)
    (hv : ∀ p ∈ store, p.2 ≠ none) :
    (∀ k, mget (load_docstore (some (save_docstore store))) k = mget store k) ∧
    (∀ k, k ∈ yieldKeys (load_docstore (some (save_docstore store))) ↔
      k ∈ yieldKeys store) ∧
    load_docstore none = [] := by
  have hre : load_docstore (some (save_docstore store)) = store := by
    rw [load_save_eq store hnd]
    apply List.filter_eq_self.mpr
    intro p hp
    cases h : p.2 with
    | none => exact absurd h (hv p hp)
    | some v => simp [h]
  exact ⟨fun k => by rw [hre], fun k => by rw [hre], rfl⟩

theorem docstore_roundtrip_witness :
    ((yieldKeys [("k1", some "v1"), ("k2", some "v2")]).Nodup ∧
     ∀ p ∈ ([("k1", some "v1"), ("k2", some "v2")] : InMemoryStore), p.2 ≠ none) ∧
    ((∀ k, mget (load_docstore
          (some (save_docstore [("k1", some "v1"), ("k2", some "v2")]))) k =
        mget [("k1", some "v1"), ("k2", some "v2")] k) ∧
     (∀ k, k ∈ yieldKeys (load_docstore
          (some (save_docstore [("k1", some "v1"), ("k2", some "v2")]))) ↔
        k ∈ yieldKeys [("k1", some "v1"), ("k2", some "v2")]) ∧
     load_docstore none = []) :=
  ⟨⟨by decide, by decide⟩,
   docstore_roundtrip [("k1", some "v1"), ("k2", some "v2")] (by decide) (by decide)⟩

/-- **C10.** `save_docstore` serializes only the entries whose stored value
is non-`None`: a key stored with `None` is absent from the written
snapshot, and the save-then-load round trip rebuilds exactly the non-`None`
entries of the original store (in their original order). -/
theorem save_docstore_skips_none (store : InMemoryStore)
    (hnd : (yieldKeys store).Nodup) :
    (∀ k, (k, (none : Option String)) ∈ store →
      k ∉ (save_docstore store).map Prod.fst) ∧
    load_docstore (some (save_docstore store)) =
      store.filter (fun p => !p.2.isNone) := by
  constructor
  · intro k hkn hkmem
    rw [save_docstore_eq_filterMap store hnd] at hkmem
    rcases List.mem_map.mp hkmem with ⟨q, hq, hq1⟩
    rcases List.mem_filterMap.mp hq with ⟨p, hp, hpq⟩
    have hnd' : (store.map Prod.fst).Nodup := by simpa [yieldKeys] using hnd
    cases h2 : p.2 with
    | none =>
      rw [h2] at hpq
      exact Option.noConfusion hpq
    | some w =>
      rw [h2] at hpq
      have hpq' : (p.1, w) = q := Option.some_inj.mp hpq
      have e1 : mget store k = none := mget_of_mem_nodup store (k, none) hnd' hkn
      have e2 : mget store p.1 = p.2 := mget_of_mem_nodup store p hnd' hp
      have hpk : p.1 = k := by rw [← hq1, ← hpq']
      rw [hpk, h2, e1] at e2
      exact Option.noConfusion e2
  · exact load_save_eq store hnd

theorem save_docstore_skips_none_witness :
    (yieldKeys [("a", some "1"), ("b", none)]).Nodup ∧
    ((∀ k, (k, (none : Option String)) ∈
        ([("a", some "1"), ("b", none)] : InMemoryStore) →
      k ∉ (save_docstore [("a", some "1"), ("b", none)]).map Prod.fst) ∧
     load_docstore (some (save_docstore [("a", some "1"), ("b", none)])) =
       ([("a", some "1"), ("b", none)] : InMemoryStore).filter
         (fun p => !p.2.isNone)) :=
  ⟨by decide, save_docstore_skips_none [("a", some "1"), ("b", none)] (by decide)⟩

/-! ## Dual-store batch indexing (src/vectorstore.py:73-103)

`add_texts_to_store` generates one `uuid.uuid4()` per summary, inserts one
summary `Document` (with `metadata = {doc_id: id}`) per item into the
Chroma vector store, writes all `(id, original)` pairs into the docstore,
and persists the docstore snapshot.  `uuid4` draws from an external
randomness source, so the supply of generated ids is an explicit parameter
`ids` (one fresh id per summary; `uuid4` guarantees uniqueness), which
makes it manifest that the ids depend only on the supply, never on the
content being indexed.  The vector store is modelled by its list of
records in insertion order, and the operation additionally returns the
ordered trace of external store operations it performs. -/

/-- A Chroma record produced from one summary: `Document(page_content=s,
metadata={doc_id: id})`. -/
structure SummaryDoc where
  page_content : String
  doc_id : String
deriving DecidableEq, Repr

/-- The externally visible store operations of `add_texts_to_store`, in
program order. -/
inductive StoreEffect where
  | addDocuments (docs : List SummaryDoc)
  | msetPairs (pairs : List (String × String))
  | persistSnapshot (snapshot : List (String × String))
deriving DecidableEq, Repr

/-- The three stores touched by indexing: the Chroma collection, the
in-memory docstore, and the docstore file on disk. -/
structure Stores where
  vec : List SummaryDoc
  doc : InMemoryStore
  disk : Option (List (String × String))
deriving DecidableEq, Repr

/-- Embedding of `add_texts_to_store` (src/vectorstore.py:73-103): no-op on
empty `summaries`; otherwise build the summary documents, add them to the
vector store, `mset` the zipped `(id, original)` pairs into the docstore,
and persist the full docstore snapshot — in that order. -/
def add_texts_to_store (ids : List String) (summaries originals : List String)
    (st : Stores) : Stores × List StoreEffect :=
  if summaries.isEmpty then (st, [])
  else
    let summary_docs := List.zipWith (fun s i => SummaryDoc.mk s i) summaries ids
    let doc' := mset st.doc ((ids.zip originals).map (fun p => (p.1, some p.2)))
    let snapshot := save_docstore doc'
    (⟨st.vec ++ summary_docs, doc', some snapshot⟩,
     [StoreEffect.addDocuments summary_docs,
      StoreEffect.msetPairs (ids.zip originals),
      StoreEffect.persistSnapshot snapshot])

/-! ### Indexing lemmas -/

theorem zipWith_mk_map_doc_id (summaries ids : List String)
    (h : ids.length = summaries.length) :
    (List.zipWith (fun s i => SummaryDoc.mk s i) summaries ids).map
      SummaryDoc.doc_id = ids := by
  induction summaries generalizing ids with
  | nil => cases ids with
    | nil => rfl
    | cons i is => simp at h
  | cons s ss ih =>
    cases ids with
    | nil => simp at h
    | cons i is =>
      simp only [List.zipWith_cons_cons, List.map_cons, List.cons.injEq]
      exact ⟨trivial, ih is (by simpa using h)⟩

theorem zipWith_mk_map_content (summaries ids : List String)
    (h : ids.length = summaries.length) :
    (List.zipWith (fun s i => SummaryDoc.mk s i) summaries ids).map
      SummaryDoc.page_content = summaries := by
  induction summaries generalizing ids with
  | nil => rfl
  | cons s ss ih =>
    cases ids with
    | nil => simp at h
    | cons i is =>
      simp only [List.zipWith_cons_cons, List.map_cons, List.cons.injEq]
      exact ⟨trivial, ih is (by simpa using h)⟩

/-! ### Indexing claim theorem -/

/-- **C3.** `add_texts_to_store` is a no-op when `summaries` is empty.
Otherwise it performs, in order: (1) one fresh unique id per item — the ids
are exactly the external `uuid4` supply, so they are never derived from the
content (re-indexing identical content with the fresh supply of a new call
creates new entries); (2) insertion of one embedding-store record per item
with content the summary and metadata the id; (3) writing all
`(id, original)` pairs into the key-value store; (4) persisting the full
key-value snapshot — with the embedding-store insertion strictly before
the key-value persistence in the effect trace. -/
theorem add_batch_contract (ids summaries originals : List String) (st : Stores)
    (hlen : ids.length = summaries.length) (hnodup : ids.Nodup) :
    (summaries.isEmpty = true → add_texts_to_store ids summaries originals st = (st, [])) ∧
    (summaries.isEmpty = false →
      (add_texts_to_store ids summaries originals st).2 =
        [StoreEffect.addDocuments
           (List.zipWith (fun s i => SummaryDoc.mk s i) summaries ids),
         StoreEffect.msetPairs (ids.zip originals),
         StoreEffect.persistSnapshot
           (save_docstore (add_texts_to_store ids summaries originals st).1.doc)] ∧
      (add_texts_to_store ids summaries originals st).1.vec =
        st.vec ++ List.zipWith (fun s i => SummaryDoc.mk s i) summaries ids ∧
      (add_texts_to_store ids summaries originals st).1.doc =
        mset st.doc ((ids.zip originals).map (fun p => (p.1, some p.2))) ∧
      (add_texts_to_store ids summaries originals st).1.disk =
        some (save_docstore (add_texts_to_store ids summaries originals st).1.doc)) ∧
    (List.zipWith (fun s i => SummaryDoc.mk s i) summaries ids).length =
      summaries.length ∧
    (List.zipWith (fun s i => SummaryDoc.mk s i) summaries ids).map
      SummaryDoc.page_content = summaries ∧
    (List.zipWith (fun s i => SummaryDoc.mk s i) summaries ids).map
      SummaryDoc.doc_id = ids ∧
    ((List.zipWith (fun s i => SummaryDoc.mk s i) summaries ids).map
      SummaryDoc.doc_id).Nodup := by
  refine ⟨?_, ?_, ?_, ?_, ?_, ?_⟩
  · intro h
    rw [add_texts_to_store, if_pos h]
  · intro h
    simp only [add_texts_to_store, h, Bool.false_eq_true, if_false]
    exact ⟨trivial, trivial, trivial, trivial⟩
  · rw [List.length_zipWith]
    omega
  · exact zipWith_mk_map_content summaries ids hlen
  · exact zipWith_mk_map_doc_id summaries ids hlen
  · rw [zipWith_mk_map_doc_id summaries ids hlen]
    exact hnodup

theorem add_batch_contract_witness :
    ((["i1", "i2"] : List String).length = (["s1", "s2"] : List String).length ∧
     (["i1", "i2"] : List String).Nodup) ∧
    ((["s1", "s2"] : List String).isEmpty = true →
      add_texts_to_store ["i1", "i2"] ["s1", "s2"] ["o1", "o2"]
        ⟨[], [], none⟩ = (⟨[], [], none⟩, [])) ∧
    ((["s1", "s2"] : List String).isEmpty = false →
      (add_texts_to_store ["i1", "i2"] ["s1", "s2"] ["o1", "o2"]
          ⟨[], [], none⟩).2 =
        [StoreEffect.addDocuments
           (List.zipWith (fun s i => SummaryDoc.mk s i) ["s1", "s2"] ["i1", "i2"]),
         StoreEffect.msetPairs ((["i1", "i2"] : List String).zip ["o1", "o2"]),
         StoreEffect.persistSnapshot
           (save_docstore (add_texts_to_store ["i1", "i2"] ["s1", "s2"] ["o1", "o2"]
             ⟨[], [], none⟩).1.doc)] ∧
      (add_texts_to_store ["i1", "i2"] ["s1", "s2"] ["o1", "o2"]
          ⟨[], [], none⟩).1.vec =
        ([] : List SummaryDoc) ++
          List.zipWith (fun s i => SummaryDoc.mk s i) ["s1", "s2"] ["i1", "i2"] ∧
      (add_texts_to_store ["i1", "i2"] ["s1", "s2"] ["o1", "o2"]
          ⟨[], [], none⟩).1.doc =
        mset [] (((["i1", "i2"] : List String).zip ["o1", "o2"]).map
          (fun p => (p.1, some p.2))) ∧
      (add_texts_to_store ["i1", "i2"] ["s1", "s2"] ["o1", "o2"]
          ⟨[], [], none⟩).1.disk =
        some (save_docstore (add_texts_to_store ["i1", "i2"] ["s1", "s2"] ["o1", "o2"]
          ⟨[], [], none⟩).1.doc)) ∧
    (List.zipWith (fun s i => SummaryDoc.mk s i) ["s1", "s2"] ["i1", "i2"]).length =
      (["s1", "s2"] : List String).length ∧
    (List.zipWith (fun s i => SummaryDoc.mk s i) ["s1", "s2"] ["i1", "i2"]).map
      SummaryDoc.page_content = ["s1", "s2"] ∧
    (List.zipWith (fun s i => SummaryDoc.mk s i) ["s1", "s2"] ["i1", "i2"]).map
      SummaryDoc.doc_id = ["i1", "i2"] ∧
    ((List.zipWith (fun s i => SummaryDoc.mk s i) ["s1", "s2"] ["i1", "i2"]).map
      SummaryDoc.doc_id).Nodup :=
  ⟨⟨by decide, by decide⟩,
   add_batch_contract ["i1", "i2"] ["s1", "s2"] ["o1", "o2"] ⟨[], [], none⟩
     (by decide) (by decide)⟩

/-! ## Indexed-PDF registry (src/utils.py:69-83)

The registry file is `Option (List String)` (`none` when no file exists);
`load_indexed_pdfs` builds `set(json.load(f))`, modelled as the
deduplicated contents, and `save_indexed_pdf` writes `sorted(set)` back.
Python `sorted` on strings is lexicographic by code point, embedded as the
boolean comparison `strLeB` on the character lists. -/

/-- Python string `<=`: lexicographic comparison by code point. -/
def strLeB : List Char → List Char → Bool
  | [], _ => true
  | _ :: _, [] => false
  | a :: as, b :: bs =>
    if a.toNat < b.toNat then true
    else if b.toNat < a.toNat then false
    else strLeB as bs

/-- The order in which Python `sorted` lists strings. -/
def pyLe (a b : String) : Prop := strLeB a.data b.data = true

instance : DecidableRel pyLe := fun a b =>
  inferInstanceAs (Decidable (strLeB a.data b.data = true))

theorem strLeB_total (as bs : List Char) :
    strLeB as bs = true ∨ strLeB bs as = true := by
  induction as generalizing bs with
  | nil => left; rfl
  | cons a as ih =>
    cases bs with
    | nil => right; rfl
    | cons b bs' =>
      rcases Nat.lt_trichotomy a.toNat b.toNat with h | h | h
      · left; rw [strLeB, if_pos h]
      · rcases ih bs' with h2 | h2
        · left
          rw [strLeB, if_neg (by omega), if_neg (by omega)]
          exact h2
        · right
          rw [strLeB, if_neg (by omega), if_neg (by omega)]
          exact h2
      · right; rw [strLeB, if_pos h]

theorem strLeB_trans (as bs cs : List Char) (h1 : strLeB as bs = true)
    (h2 : strLeB bs cs = true) : strLeB as cs = true := by
  induction as generalizing bs cs with
  | nil => rfl
  | cons a as ih =>
    cases bs with
    | nil => rw [strLeB] at h1; exact absurd h1 (by simp)
    | cons b bs' =>
      cases cs with
      | nil => rw [strLeB] at h2; exact absurd h2 (by simp)
      | cons c cs' =>
        rw [strLeB] at h1 h2 ⊢
        rcases Nat.lt_trichotomy a.toNat c.toNat with hac | hac | hac
        · rw [if_pos hac]
        · rw [if_neg (by omega), if_neg (by omega)]
          -- a and c have the same code point: b must coincide with both
          rcases Nat.lt_trichotomy a.toNat b.toNat with hab | hab | hab
          · rcases Nat.lt_trichotomy b.toNat c.toNat with hbc | hbc | hbc
            · omega
            · omega
            · rw [if_neg (by omega), if_pos (by omega)] at h2
              exact absurd h2 (by simp)
          · rw [if_neg (by omega), if_neg (by omega)] at h1
            rw [if_neg (by omega), if_neg (by omega)] at h2
            exact ih bs' cs' h1 h2
          · rw [if_neg (by omega), if_pos (by omega)] at h1
            exact absurd h1 (by simp)
        · -- a.toNat > c.toNat is impossible given h1 and h2
          exfalso
          rcases Nat.lt_trichotomy a.toNat b.toNat with hab | hab | hab
          · rw [if_neg (by omega), if_pos (by omega)] at h2
            exact absurd h2 (by simp)
          · rw [if_neg (by omega), if_pos (by omega)] at h2
            exact absurd h2 (by simp)
          · rw [if_neg (by omega), if_pos (by omega)] at h1
            exact absurd h1 (by simp)

instance : IsTotal String pyLe := ⟨fun a b => strLeB_total a.data b.data⟩

instance : IsTrans String pyLe :=
  ⟨fun a b c h1 h2 => strLeB_trans a.data b.data c.data h1 h2⟩

/-- Embedding of `load_indexed_pdfs` (src/utils.py:69-74):
`set(json.load(f))` when the file exists, else the empty set. -/
def load_indexed_pdfs (file : Option (List String)) : List String :=
  match file with
  | some names => names.dedup
  | none => []

/-- Embedding of `save_indexed_pdf` (src/utils.py:77-83): load the current
set, add the filename, write the sorted list back. -/
def save_indexed_pdf (filename : String) (file : Option (List String)) :
    Option (List String) :=
  some (List.insertionSort pyLe ((load_indexed_pdfs file).insert filename))

/-! ### Registry lemmas -/

theorem save_indexed_pdf_nodup (filename : String) (file : Option (List String)) :
    ∀ l, save_indexed_pdf filename file = some l → l.Nodup := by
  intro l hl
  rw [save_indexed_pdf, Option.some_inj] at hl
  have hbase : ((load_indexed_pdfs file).insert filename).Nodup := by
    apply List.Nodup.insert
    cases file with
    | none => exact List.nodup_nil
    | some names => exact names.nodup_dedup
  rw [← hl]
  exact ((List.perm_insertionSort pyLe
    ((load_indexed_pdfs file).insert filename)).symm).nodup hbase

theorem save_indexed_pdf_mem (filename : String) (file : Option (List String)) :
    ∀ l, save_indexed_pdf filename file = some l → filename ∈ l := by
  intro l hl
  rw [save_indexed_pdf, Option.some_inj] at hl
  rw [← hl]
  exact ((List.perm_insertionSort pyLe _).mem_iff).mpr (List.mem_insert_self _ _)

theorem save_indexed_pdf_sorted (filename : String) (file : Option (List String)) :
    ∀ l, save_indexed_pdf filename file = some l → List.Sorted pyLe l := by
  intro l hl
  rw [save_indexed_pdf, Option.some_inj] at hl
  rw [← hl]
  exact List.sorted_insertionSort pyLe _

/-! ### Registry claim theorem -/

/-- **C8.** Adding the same document name to the registry twice
(`save_indexed_pdf` then `save_indexed_pdf` with the same name) leaves the
persisted registry identical to adding it once — in particular the
registry holds exactly one occurrence of that name — and the registry is
persisted as a sorted (in Python string order) duplicate-free list. -/
theorem registry_idempotent (filename : String) (file : Option (List String)) :
    save_indexed_pdf filename (save_indexed_pdf filename file) =
      save_indexed_pdf filename file ∧
    (∀ l, save_indexed_pdf filename file = some l →
      l.count filename = 1 ∧ List.Sorted pyLe l) := by
  constructor
  · have hsorted := save_indexed_pdf_sorted filename file _ rfl
    have hmem := save_indexed_pdf_mem filename file _ rfl
    have hnodup := save_indexed_pdf_nodup filename file _ rfl
    set s1 := List.insertionSort pyLe ((load_indexed_pdfs file).insert filename) with hs1
    show save_indexed_pdf filename (some s1) = some s1
    rw [save_indexed_pdf]
    have hload : load_indexed_pdfs (some s1) = s1 := List.Nodup.dedup hnodup
    rw [hload, List.insert_of_mem hmem]
    rw [List.Sorted.insertionSort_eq hsorted]
  · intro l hl
    exact ⟨List.count_eq_one_of_mem (save_indexed_pdf_nodup filename file l hl)
        (save_indexed_pdf_mem filename file l hl),
      save_indexed_pdf_sorted filename file l hl⟩

theorem registry_idempotent_witness :
    (save_indexed_pdf "b.pdf" (save_indexed_pdf "b.pdf" (some ["a.pdf"])) =
      save_indexed_pdf "b.pdf" (some ["a.pdf"]) ∧
     (∀ l, save_indexed_pdf "b.pdf" (some ["a.pdf"]) = some l →
       l.count "b.pdf" = 1 ∧ List.Sorted pyLe l)) ∧
    (["a.pdf", "b.pdf"] : List String).count "b.pdf" = 1 ∧
    List.Sorted pyLe ["a.pdf", "b.pdf"] :=
  ⟨registry_idempotent "b.pdf" (some ["a.pdf"]),
   (registry_idempotent "b.pdf" (some ["a.pdf"])).2 ["a.pdf", "b.pdf"] (by decide)⟩

end MMRag
